import Mathlib

/-!
Verification of the core algorithms of the MungLinker repository: the
geometric object matcher of `evaluate_notation_assembly_from_mung.py`, the
bidirectional edge operations `add_edge_in_graph` and `graph_has_edge` of
`run.py`, the runner's graph-rebuilding loop `MunglinkerRunner.run`, the
edge-level evaluation loop of `evaluate_notation_assembly_from_mung.main`,
and the per-class-pair evaluation of `evaluation.py`.

Modelling conventions: Python dicts are association lists (comprehension
dicts get last-write-wins lookup), mutable `CropObject`s are either values
in an id-keyed map (for the graph operations, which receive the dict
`id_to_crop_object_mapping` of one document's distinct objects) or cells of
an addressed store (for the runner, where aliasing between the input graph
and its deep copies matters), raised Python exceptions are `Except` errors,
and the source's IEEE float64 arithmetic is carried out exactly in `ℚ`.
-/

namespace MungLinker

/-- A MuNG crop object: integer id, class name, inclusive bounding box
coordinates, and the edge lists `inlinks`/`outlinks` holding object ids
(Python keeps them as lists, not sets). -/
structure CropObject where
  objid : Int
  clsname : String
  left : Int
  top : Int
  right : Int
  bottom : Int
  inlinks : List Int
  outlinks : List Int
deriving Repr, DecidableEq

/-- Placeholder object used only to totalize lookups whose success is
guaranteed by a hypothesis. -/
def defaultObj : CropObject := ⟨0, "", 0, 0, 0, 0, [], []⟩

/-- Inclusive-pixel box area, as in lines 53 and 60-61 of
evaluate_notation_assembly_from_mung.py. -/
def area (o : CropObject) : Int :=
  (o.right - o.left + 1) * (o.bottom - o.top + 1)

/-- Intersection width `iw` (line 54). -/
def interW (p r : CropObject) : Int :=
  min p.right r.right - max p.left r.left + 1

/-- Intersection height `ih` (line 57). -/
def interH (p r : CropObject) : Int :=
  min p.bottom r.bottom - max p.top r.top + 1

/-- `match` from evaluate_notation_assembly_from_mung.py lines 48-70
(`match` is a reserved word in Lean, hence the name). The float64 division
and comparison of the source are carried out exactly in `ℚ`. -/
def matchObjects (p_obj r_obj : CropObject) (threshold : ℚ) : Bool :=
  if p_obj.clsname = r_obj.clsname then
    let box_area : Int := (r_obj.right - r_obj.left + 1) * (r_obj.bottom - r_obj.top + 1)
    let iw : Int := min p_obj.right r_obj.right - max p_obj.left r_obj.left + 1
    if iw > 0 then
      let ih : Int := min p_obj.bottom r_obj.bottom - max p_obj.top r_obj.top + 1
      if ih > 0 then
        let ua : ℚ :=
          ((p_obj.right - p_obj.left + 1) * (p_obj.bottom - p_obj.top + 1)
            + box_area - iw * ih : Int)
        let iou : ℚ := ((iw * ih : Int) : ℚ) / ua
        if iou > threshold then true else false
      else false
    else false
  else false

/-! ## Graph operations of run.py

`add_edge_in_graph` (lines 109-131) and `graph_has_edge` (lines 133-153)
act on the Python dict `id_to_crop_object_mapping` from objid to object.
The dict is modelled as an association list with first-entry-wins lookup
(dict keys are unique, so the two agree); a raised exception is an
`Except.error`, so a failing call returns no modified mapping, which is
exactly the source behaviour (the raises all happen before any mutation).
`unknownNode` models the NotationGraphError raised by the explicit
membership checks of `add_edge_in_graph`, `inconsistent` the
NotationGraphError raised on a one-sided edge, and `keyError` the Python
KeyError from an unguarded dict access. -/

/-- Python exceptions raised by the modelled code paths. -/
inductive PyErr where
  | unknownNode (id : Int)
  | inconsistent (a b : Int)
  | keyError (id : Int)
  | zeroDivision
deriving Repr, DecidableEq

/-- One document's `id_to_crop_object_mapping`. -/
abbrev GraphMap := List (Int × CropObject)

/-- Association-list lookup, first entry wins. -/
def dictLookup {α : Type} (k : Int) : List (Int × α) → Option α
  | [] => none
  | p :: rest => if p.1 = k then some p.2 else dictLookup k rest

/-- Lookup in a dict built by a Python comprehension over a pair list:
later pairs overwrite earlier ones, so the last binding wins. -/
def pyDictGet {α : Type} (l : List (Int × α)) (k : Int) : Option α :=
  dictLookup k l.reverse

/-- Replace the value stored under key `k` by `f` of it (Python mutates the
object held in the dict in place). -/
def updateNode (g : GraphMap) (k : Int) (f : CropObject → CropObject) : GraphMap :=
  g.map (fun p => if p.1 = k then (p.1, f p.2) else p)

/-- Replace the outlinks list of an object (Python `obj.outlinks` append). -/
def setOutlinks (o : CropObject) (l : List Int) : CropObject :=
  ⟨o.objid, o.clsname, o.left, o.top, o.right, o.bottom, o.inlinks, l⟩

/-- Replace the inlinks list of an object (Python `obj.inlinks` append). -/
def setInlinks (o : CropObject) (l : List Int) : CropObject :=
  ⟨o.objid, o.clsname, o.left, o.top, o.right, o.bottom, l, o.outlinks⟩

/-- `MunglinkerRunner.add_edge_in_graph`, run.py lines 109-131. -/
def add_edge_in_graph (from_node to_node : Int) (g : GraphMap) :
    Except PyErr GraphMap :=
  match dictLookup from_node g with
  | none => .error (.unknownNode from_node)
  | some fo =>
    match dictLookup to_node g with
    | none => .error (.unknownNode to_node)
    | some td =>
      if to_node ∈ fo.outlinks then
        if from_node ∈ td.inlinks then .ok g
        else .error (.inconsistent from_node to_node)
      else if from_node ∈ td.inlinks then .error (.inconsistent from_node to_node)
      else .ok (updateNode
          (updateNode g from_node (fun o => setOutlinks o (o.outlinks ++ [to_node])))
          to_node (fun o => setInlinks o (o.inlinks ++ [from_node])))

/-- `MunglinkerRunner.graph_has_edge`, run.py lines 133-153. The warnings
logged for unknown ids have no observable effect and are not modelled; the
subsequent unguarded dict accesses are, as `keyError`. -/
def graph_has_edge (from_node to_node : Int) (g : GraphMap) : Except PyErr Bool :=
  match dictLookup from_node g with
  | none => .error (.keyError from_node)
  | some fo =>
    if to_node ∈ fo.outlinks then
      match dictLookup to_node g with
      | none => .error (.keyError to_node)
      | some td =>
        if from_node ∈ td.inlinks then .ok true
        else .error (.inconsistent from_node to_node)
    else
      match dictLookup to_node g with
      | none => .error (.keyError to_node)
      | some td =>
        if from_node ∈ td.inlinks then .error (.inconsistent from_node to_node)
        else .ok false

/-- The bidirectional edge invariant of the spec's data model: for any two
objects `a`, `b` of the mapping, `b ∈ a.outlinks ⇔ a ∈ b.inlinks`. -/
def EdgeInvariant (g : GraphMap) : Prop :=
  ∀ pa ∈ g, ∀ pb ∈ g, (pb.1 ∈ pa.2.outlinks ↔ pa.1 ∈ pb.2.inlinks)

/-! Concrete mappings used by the witnesses below: `demoG` has nodes 1, 2
and no edges, `demoG'` is `demoG` after `add_edge_in_graph 1 2`, and
`demoGbad` records the edge 1 → 2 on the outlinks side only. -/

def demoG : GraphMap :=
  [(1, ⟨1, "a", 0, 0, 0, 0, [], []⟩), (2, ⟨2, "b", 0, 0, 0, 0, [], []⟩)]

def demoG' : GraphMap :=
  [(1, ⟨1, "a", 0, 0, 0, 0, [], [2]⟩), (2, ⟨2, "b", 0, 0, 0, 0, [1], []⟩)]

def demoGbad : GraphMap :=
  [(1, ⟨1, "a", 0, 0, 0, 0, [], [2]⟩), (2, ⟨2, "b", 0, 0, 0, 0, [], []⟩)]


/-! ## Edge-level evaluation of evaluate_notation_assembly_from_mung.main

`main` (lines 100-127) builds the two id mappings from the matching pairs
by dict comprehension, turns the object lists into objid-keyed dicts, and
walks the matched pairs accumulating TP/FP/FN. The dict accesses
`prediction_to_reference_mapping[out_p_edge]` (line 116) and
`reference_to_prediction_mapping[out_r_edge]` (line 124) are unguarded, so
a target with no mapping entry raises KeyError. -/

/-- `cropobject_dict_from_list` (lines 85-86); objids are unique within a
document, so first-entry-wins lookup agrees with the Python dict. -/
def cropobject_dict_from_list (l : List CropObject) : GraphMap :=
  l.map (fun c => (c.objid, c))

/-- The TP/FP loop (lines 115-120) over one matched pair's predicted
outlinks, given the prediction-to-reference dict `p2r` and the matched
reference object's outlinks `rOut`. -/
def scorePredEdges (p2r : List (Int × Int)) (rOut : List Int) :
    List Int → Except PyErr (Nat × Nat)
  | [] => .ok (0, 0)
  | e :: rest =>
    match pyDictGet p2r e with
    | none => .error (.keyError e)
    | some m =>
      match scorePredEdges p2r rOut rest with
      | .error err => .error err
      | .ok (tp, fp) =>
        if m ∈ rOut then .ok (tp + 1, fp) else .ok (tp, fp + 1)

/-- The FN loop (lines 123-125) over one matched pair's reference outlinks,
given the reference-to-prediction dict `r2p` and the matched predicted
object's outlinks `pOut`. -/
def scoreRefEdges (r2p : List (Int × Int)) (pOut : List Int) :
    List Int → Except PyErr Nat
  | [] => .ok 0
  | e :: rest =>
    match pyDictGet r2p e with
    | none => .error (.keyError e)
    | some m =>
      match scoreRefEdges r2p pOut rest with
      | .error err => .error err
      | .ok fn => if m ∉ pOut then .ok (fn + 1) else .ok fn

/-- The per-pair loop of main (lines 110-125); the counters are summed
per pair, which agrees with the source's running accumulators. -/
def scorePairs (p2r r2p : List (Int × Int)) (preds refs : GraphMap) :
    List (Int × Int) → Except PyErr (Nat × Nat × Nat)
  | [] => .ok (0, 0, 0)
  | pr :: rest =>
    match dictLookup pr.1 preds with
    | none => .error (.keyError pr.1)
    | some po =>
      match dictLookup pr.2 refs with
      | none => .error (.keyError pr.2)
      | some ro =>
        match scorePredEdges p2r ro.outlinks po.outlinks with
        | .error err => .error err
        | .ok t2 =>
          match scoreRefEdges r2p po.outlinks ro.outlinks with
          | .error err => .error err
          | .ok fn =>
            match scorePairs p2r r2p preds refs rest with
            | .error err => .error err
            | .ok t3 => .ok (t2.1 + t3.1, t2.2 + t3.2.1, fn + t3.2.2)

/-- The edge-level evaluation of main, lines 100-125: dicts
`prediction_to_reference_mapping = {p: r}` and
`reference_to_prediction_mapping = {r: p}` are the pair list itself and its
swap under last-write-wins lookup. -/
def evaluateEdges (matching : List (Int × Int)) (preds refs : GraphMap) :
    Except PyErr (Nat × Nat × Nat) :=
  scorePairs matching (matching.map (fun q => (q.2, q.1))) preds refs matching

/-- Stated from the spec, for comparison with the code: number of outgoing
edges of a matched predicted object whose mapped reference id lies in the
matched reference object's outlinks (the true positives of one pair). -/
def specTPcount (p2r : List (Int × Int)) (rOut pOut : List Int) : Nat :=
  (pOut.filter (fun e =>
    match pyDictGet p2r e with
    | some m => decide (m ∈ rOut)
    | none => false)).length

/-- Stated from the spec: mapped outgoing edges whose mapped id is not
among the reference outlinks (the false positives of one pair). -/
def specFPcount (p2r : List (Int × Int)) (rOut pOut : List Int) : Nat :=
  (pOut.filter (fun e =>
    match pyDictGet p2r e with
    | some m => decide (m ∉ rOut)
    | none => false)).length

/-- Stated from the spec: reference outgoing edges whose mapped predicted
id is not among the predicted outlinks (the false negatives of one pair). -/
def specFNcount (r2p : List (Int × Int)) (pOut rOut : List Int) : Nat :=
  (rOut.filter (fun e =>
    match pyDictGet r2p e with
    | some m => decide (m ∉ pOut)
    | none => false)).length

/-- Stated from the spec: TP/FP/FN totals over all matched pairs. -/
def specTotals (p2r r2p : List (Int × Int)) (preds refs : GraphMap) :
    List (Int × Int) → Nat × Nat × Nat
  | [] => (0, 0, 0)
  | pr :: rest =>
    let po := (dictLookup pr.1 preds).getD defaultObj
    let ro := (dictLookup pr.2 refs).getD defaultObj
    let t := specTotals p2r r2p preds refs rest
    (specTPcount p2r ro.outlinks po.outlinks + t.1,
     specFPcount p2r ro.outlinks po.outlinks + t.2.1,
     specFNcount r2p po.outlinks ro.outlinks + t.2.2)

/-- Every matched pair's objects are present in the object dicts and every
outgoing-edge target (on both the predicted and the reference side) has an
entry in the respective id mapping. -/
def PairsTotal (p2r r2p : List (Int × Int)) (preds refs : GraphMap)
    (pairs : List (Int × Int)) : Prop :=
  ∀ pr ∈ pairs,
    (dictLookup pr.1 preds).isSome = true ∧
    (dictLookup pr.2 refs).isSome = true ∧
    (∀ e ∈ ((dictLookup pr.1 preds).getD defaultObj).outlinks,
      (pyDictGet p2r e).isSome = true) ∧
    (∀ e ∈ ((dictLookup pr.2 refs).getD defaultObj).outlinks,
      (pyDictGet r2p e).isSome = true)

/-- Line 127: the aggregate F1 score `2·TP / (2·TP + FP + FN)` printed by
main. Python float division raises ZeroDivisionError on a zero
denominator; the division is modelled exactly in ℚ. Precision and recall
are not computed anywhere on this code path. -/
def f1FromCounts (tp fp fn : Nat) : Except PyErr ℚ :=
  let denom : ℚ := 2 * (tp : ℚ) + (fp : ℚ) + (fn : ℚ)
  if denom = 0 then .error .zeroDivision else .ok (2 * (tp : ℚ) / denom)

/-- Counterexample input for C5: predicted object 1 (matched to reference
10) has an outgoing edge to predicted object 2, which is matched to no
reference object. -/
def cexPreds : GraphMap := cropobject_dict_from_list
  [⟨1, "notehead-full", 0, 0, 9, 9, [], [2]⟩, ⟨2, "stem", 0, 0, 9, 9, [1], []⟩]

/-- Counterexample input for C5: the single reference object. -/
def cexRefs : GraphMap := cropobject_dict_from_list
  [⟨10, "notehead-full", 0, 0, 9, 9, [], []⟩]

/-- A fully matched two-node example used by the C5 witness. -/
def demoMatching : List (Int × Int) := [(1, 10), (2, 20)]

/-- Predicted objects of the C5 witness: edge 1 → 2. -/
def demoPreds : GraphMap := cropobject_dict_from_list
  [⟨1, "notehead-full", 0, 0, 9, 9, [], [2]⟩, ⟨2, "stem", 0, 0, 9, 9, [1], []⟩]

/-- Reference objects of the C5 witness: edge 10 → 20 plus an unmatched
extra edge 10 → 30 to reference object 30. -/
def demoRefs : GraphMap := cropobject_dict_from_list
  [⟨10, "notehead-full", 0, 0, 9, 9, [], [20]⟩, ⟨20, "stem", 0, 0, 9, 9, [10], []⟩]

/-! ## Per-class-pair evaluation of evaluation.py

`evaluate_classification_by_class_pairs` (lines 34-88) groups the zipped
inputs by the (from-class, to-class) pair, evaluates each bucket with
`evaluate_clf`, and keeps a bucket only if its support reaches
`min_support` (source default 10); `print_class_pair_results`
(lines 91-110) prints buckets ordered by decreasing support, skipping
those below its own `min_support` (source default 20). -/

/-- Binary-classification metrics of one bucket as returned by
`evaluate_clf`. -/
structure ClfResult where
  accuracy : ℚ
  precision : ℚ
  recall' : ℚ
  fscore : ℚ
  support : Option Nat
deriving Repr, DecidableEq

/-- Modelled from the spec: `evaluate_clf` (evaluation.py lines 17-31)
delegates to scikit-learn's `accuracy_score` and
`precision_recall_fscore_support` with the binary average — library code
outside this repository. Standard binary-classification definitions for
the positive class, zero denominators giving 0 (the library default), and,
as the binary average does, a `None` support entry. -/
def evaluate_clf (pred_classes true_classes : List Nat) : ClfResult :=
  let pairs := true_classes.zip pred_classes
  let tp := (pairs.filter (fun q => decide (q.1 = 1 ∧ q.2 = 1))).length
  let fp := (pairs.filter (fun q => decide (q.1 ≠ 1 ∧ q.2 = 1))).length
  let fn := (pairs.filter (fun q => decide (q.1 = 1 ∧ q.2 ≠ 1))).length
  let correct := (pairs.filter (fun q => decide (q.1 = q.2))).length
  let n := pairs.length
  let prec : ℚ := if tp + fp = 0 then 0 else (tp : ℚ) / ((tp : ℚ) + (fp : ℚ))
  let rcl : ℚ := if tp + fn = 0 then 0 else (tp : ℚ) / ((tp : ℚ) + (fn : ℚ))
  let fsc : ℚ := if prec + rcl = 0 then 0 else 2 * prec * rcl / (prec + rcl)
  let acc : ℚ := if n = 0 then 0 else (correct : ℚ) / (n : ℚ)
  ⟨acc, prec, rcl, fsc, none⟩

/-- One bucket of the output of the per-class-pair evaluation. -/
structure CPResult where
  recall' : ℚ
  precision : ℚ
  fscore : ℚ
  support : Nat
deriving Repr, DecidableEq

/-- Insert position `i` into the bucket of class pair `k`, preserving
Python dict insertion order (lines 57-60). -/
def cpiInsert (d : List ((String × String) × List Nat)) (k : String × String)
    (i : Nat) : List ((String × String) × List Nat) :=
  match d with
  | [] => [(k, [i])]
  | b :: rest =>
    if b.1 = k then (b.1, b.2 ++ [i]) :: rest else b :: cpiInsert rest k i

/-- The enumerated class pairs of the zipped inputs (line 55's
`zip(mungos_from, mungos_to, true_classes, pred_classes)`, truncating to
the shortest input, with `enumerate` positions). -/
def classPairsOf (mungos_from mungos_to : List CropObject)
    (true_classes pred_classes : List Nat) : List (Nat × (String × String)) :=
  (((mungos_from.zip mungos_to).zip (true_classes.zip pred_classes)).map
    (fun q => (q.1.1.clsname, q.1.2.clsname))).enum

/-- The `class_pair_index` of lines 54-60. -/
def classPairIndex (quads : List (Nat × (String × String))) :
    List ((String × String) × List Nat) :=
  quads.foldl (fun d q => cpiInsert d q.2 q.1) []

/-- The body of the bucket loop, lines 63-86 (default
`flatten_results=False` path; the flattened variant only renames keys):
slice the labels at the bucket's positions, run `evaluate_clf`, replace a
`None` support by the bucket size (the `isinstance(list)` branch sums a
list-valued support, which the binary average never yields), and keep the
bucket only if its support reaches `min_support`. -/
def bucketStep (true_classes pred_classes : List Nat) (min_support : Nat)
    (b : (String × String) × List Nat)
    (acc : List ((String × String) × CPResult)) :
    List ((String × String) × CPResult) :=
  let cp_true := b.2.map (fun i => true_classes.getD i 0)
  let cp_pred := b.2.map (fun i => pred_classes.getD i 0)
  let r := evaluate_clf cp_pred cp_true
  let support := match r.support with
    | none => b.2.length
    | some s => s
  if support < min_support then acc
  else (b.1, ⟨r.recall', r.precision, r.fscore, support⟩) :: acc

/-- `evaluate_classification_by_class_pairs` (lines 34-88), as the ordered
association list of retained buckets. -/
def evaluate_classification_by_class_pairs
    (mungos_from mungos_to : List CropObject)
    (true_classes pred_classes : List Nat) (min_support : Nat) :
    List ((String × String) × CPResult) :=
  (classPairIndex
      (classPairsOf mungos_from mungos_to true_classes pred_classes)).foldr
    (bucketStep true_classes pred_classes min_support) []

/-- Insert a bucket into a list sorted by decreasing support (Python's
stable `sorted(..., reverse=True)` on the support key). -/
def insertBySupport (b : (String × String) × CPResult) :
    List ((String × String) × CPResult) → List ((String × String) × CPResult)
  | [] => [b]
  | c :: rest =>
    if c.2.support < b.2.support then b :: c :: rest
    else c :: insertBySupport b rest

/-- `print_class_pair_results` (lines 91-110), modelled as the list of
buckets printed, in print order: keys sorted by decreasing support,
skipping buckets whose support is below `min_support`. The source's
`k != 'all'` filter compares a tuple key against a string and is
identically true under the typed keys modelled here. -/
def print_class_pair_results (results : List ((String × String) × CPResult))
    (min_support : Nat) : List ((String × String) × CPResult) :=
  (results.foldl (fun acc b => insertBySupport b acc) []).filter
    (fun b => decide (min_support ≤ b.2.support))

/-- C9 witness data: ten from-objects of class a followed by nine of
class c. -/
def wMF : List CropObject :=
  List.replicate 10 ⟨0, "a", 0, 0, 0, 0, [], []⟩ ++
    List.replicate 9 ⟨1, "c", 0, 0, 0, 0, [], []⟩

/-- C9 witness data: ten to-objects of class b followed by nine of
class d. -/
def wMT : List CropObject :=
  List.replicate 10 ⟨2, "b", 0, 0, 0, 0, [], []⟩ ++
    List.replicate 9 ⟨3, "d", 0, 0, 0, 0, [], []⟩

/-- C9 witness data: all-positive true labels. -/
def wTC : List Nat := List.replicate 19 1

/-- C9 witness data: all-positive predicted labels. -/
def wPC : List Nat := List.replicate 19 1

/-! ## The runner of run.py

`MunglinkerRunner.run` (lines 74-103) deep-copies every object of the
input graph, clears the copies' edges when `replace_all_edges` is set,
builds `id_to_crop_object_mapping` over the copies (line 92), and replays
the classifier decisions through `add_edge_in_graph`, `graph_has_edge` and
`NotationGraph.remove_edge`. So that aliasing between the input graph and
the output graph is expressible, objects here live in an addressed store
(addresses are list positions) and the object dict maps objids to
addresses; `copy.deepcopy` allocates fresh cells at the end of the store.
The functions `addEdgeH`/`hasEdgeH` are the store-level reading of the
same two source functions already modelled above on value maps. -/

/-- The object heap: cell `a` holds the object at address `a`. -/
abbrev Store := List CropObject

/-- Read the store cell at address `a`. -/
def storeGet (s : Store) (a : Nat) : Option CropObject := s.get? a

/-- Mutate the object at address `a` in place. -/
def storeUpdate (s : Store) (a : Nat) (f : CropObject → CropObject) : Store :=
  match storeGet s a with
  | some o => s.set a (f o)
  | none => s

/-- The address-valued `id_to_crop_object_mapping`. -/
abbrev IdMap := List (Int × Nat)

/-- The dict comprehension of line 92 over the copies, with the i-th copy
stored at address `base + i`; on duplicate objids the Python dict keeps the
last binding, which `pyDictGet` honours. -/
def mkIdMap (copies : List CropObject) (base : Nat) : IdMap :=
  match copies with
  | [] => []
  | c :: rest => (c.objid, base) :: mkIdMap rest (base + 1)

/-- `add_edge_in_graph` (run.py lines 109-131) as invoked by run() on the
address-valued dict, reading and mutating the store cells the dict points
to. A dict entry pointing at a missing cell cannot arise from run()'s
construction; that dead branch is closed with a `keyError`. -/
def addEdgeH (from_node to_node : Int) (idMap : IdMap) (s : Store) :
    Except PyErr Store :=
  match pyDictGet idMap from_node with
  | none => .error (.unknownNode from_node)
  | some fa =>
    match pyDictGet idMap to_node with
    | none => .error (.unknownNode to_node)
    | some ta =>
      match storeGet s fa, storeGet s ta with
      | some fo, some td =>
        if to_node ∈ fo.outlinks then
          if from_node ∈ td.inlinks then .ok s
          else .error (.inconsistent from_node to_node)
        else if from_node ∈ td.inlinks then
          .error (.inconsistent from_node to_node)
        else .ok (storeUpdate
            (storeUpdate s fa (fun o => setOutlinks o (o.outlinks ++ [to_node])))
            ta (fun o => setInlinks o (o.inlinks ++ [from_node])))
      | _, _ => .error (.keyError from_node)

/-- `graph_has_edge` (run.py lines 133-153) as invoked by run() on the
address-valued dict. -/
def hasEdgeH (from_node to_node : Int) (idMap : IdMap) (s : Store) :
    Except PyErr Bool :=
  match pyDictGet idMap from_node with
  | none => .error (.keyError from_node)
  | some fa =>
    match storeGet s fa with
    | none => .error (.keyError from_node)
    | some fo =>
      if to_node ∈ fo.outlinks then
        match pyDictGet idMap to_node with
        | none => .error (.keyError to_node)
        | some ta =>
          match storeGet s ta with
          | none => .error (.keyError to_node)
          | some td =>
            if from_node ∈ td.inlinks then .ok true
            else .error (.inconsistent from_node to_node)
      else
        match pyDictGet idMap to_node with
        | none => .error (.keyError to_node)
        | some ta =>
          match storeGet s ta with
          | none => .error (.keyError to_node)
          | some td =>
            if from_node ∈ td.inlinks then .error (.inconsistent from_node to_node)
            else .ok false

/-- Modelled from the spec: `NotationGraph.remove_edge` of the muscima
library, called by run() at line 101, is not part of this repository's
sources. Per the spec (§4.2) it fails on missing nodes, fails on an
asymmetric edge, removes the edge from both sides when present, and is a
no-op when absent from both sides. -/
def removeEdgeH (from_node to_node : Int) (idMap : IdMap) (s : Store) :
    Except PyErr Store :=
  match pyDictGet idMap from_node with
  | none => .error (.unknownNode from_node)
  | some fa =>
    match pyDictGet idMap to_node with
    | none => .error (.unknownNode to_node)
    | some ta =>
      match storeGet s fa, storeGet s ta with
      | some fo, some td =>
        if to_node ∈ fo.outlinks then
          if from_node ∈ td.inlinks then
            .ok (storeUpdate
              (storeUpdate s fa (fun o => setOutlinks o (o.outlinks.erase to_node)))
              ta (fun o => setInlinks o (o.inlinks.erase from_node)))
          else .error (.inconsistent from_node to_node)
        else if from_node ∈ td.inlinks then
          .error (.inconsistent from_node to_node)
        else .ok s
      | _, _ => .error (.keyError from_node)

/-- The decision loop of run(), lines 93-101: a decision is
`(from objid, to objid, output class)` and `has_edge` is
`output_class == 1`; a true decision adds the edge, a false one removes it
if the graph currently has it. -/
def applyDecisions (idMap : IdMap) : Store → List (Int × Int × Int) →
    Except PyErr Store
  | s, [] => .ok s
  | s, d :: rest =>
    if d.2.2 = 1 then
      match addEdgeH d.1 d.2.1 idMap s with
      | .error e => .error e
      | .ok s2 => applyDecisions idMap s2 rest
    else
      match hasEdgeH d.1 d.2.1 idMap s with
      | .error e => .error e
      | .ok b =>
        if b then
          match removeEdgeH d.1 d.2.1 idMap s with
          | .error e => .error e
          | .ok s2 => applyDecisions idMap s2 rest
        else applyDecisions idMap s rest

/-- Clear an object's edge lists (run.py lines 87-89). -/
def clearLinks (o : CropObject) : CropObject :=
  ⟨o.objid, o.clsname, o.left, o.top, o.right, o.bottom, [], []⟩

/-- The deep copies made by run() lines 85-89: one fresh object per input
object, with cleared edge lists when `replaceAll` is set (the source
clears by mutating the fresh copies before any read, which is
observationally the same as copying cleared values). -/
def runCopies (s : Store) (inputAddrs : List Nat) (replaceAll : Bool) :
    List CropObject :=
  let inputObjs := inputAddrs.map (fun a => (storeGet s a).getD defaultObj)
  if replaceAll then inputObjs.map clearLinks else inputObjs

/-- `MunglinkerRunner.run` (lines 74-103): deep-copy the input objects into
fresh cells at the end of the store, build the objid dict over the copies,
and replay the decisions; on success return the final store together with
the output graph's addresses. The classifier's pair enumeration arrives as
the `decisions` input. -/
def runLinker (s : Store) (inputAddrs : List Nat)
    (decisions : List (Int × Int × Int)) (replaceAll : Bool) :
    Except PyErr (Store × List Nat) :=
  match applyDecisions (mkIdMap (runCopies s inputAddrs replaceAll) s.length)
      (s ++ runCopies s inputAddrs replaceAll) decisions with
  | .error e => .error e
  | .ok s2 =>
    .ok (s2,
      (mkIdMap (runCopies s inputAddrs replaceAll) s.length).map (fun p => p.2))

/-- Equality of every object field except the edge lists: the output
objects of run() are deep copies of the input objects up to the replayed
edges. -/
def SameShape (o o' : CropObject) : Prop :=
  o.objid = o'.objid ∧ o.clsname = o'.clsname ∧ o.left = o'.left ∧
  o.top = o'.top ∧ o.right = o'.right ∧ o.bottom = o'.bottom

/-- Every dict entry points at a live cell holding an object whose objid is
the entry's key. -/
def Coherent (idMap : IdMap) (s : Store) : Prop :=
  ∀ p ∈ idMap, ∃ o, storeGet s p.2 = some o ∧ o.objid = p.1

/-- Distinct dict entries point at distinct cells (the copies are distinct
objects). -/
def AddrInj (idMap : IdMap) : Prop :=
  ∀ p ∈ idMap, ∀ q ∈ idMap, p.2 = q.2 → p = q

/-- Every edge recorded on an object of the graph comes from a positive
decision in `D`. -/
def EdgesFromDecisions (idMap : IdMap) (s : Store)
    (D : List (Int × Int × Int)) : Prop :=
  ∀ p ∈ idMap, ∀ o, storeGet s p.2 = some o →
    (∀ b ∈ o.outlinks, (p.1, b, 1) ∈ D) ∧
    (∀ c ∈ o.inlinks, (c, p.1, 1) ∈ D)

/-- C7 witness data: a two-object input graph with a pre-existing edge
1 → 2 that the runner must discard. -/
def w7Store : Store :=
  [⟨1, "notehead-full", 0, 0, 9, 9, [], [2]⟩, ⟨2, "stem", 0, 0, 9, 9, [1], []⟩]

/-- C7 witness data: the final store after running the single decision
(2, 1, class 1) with full edge replacement — the two input cells still hold
the old edge 1 → 2, the two copy cells hold only the new edge 2 → 1. -/
def w7fin : Store :=
  [⟨1, "notehead-full", 0, 0, 9, 9, [], [2]⟩, ⟨2, "stem", 0, 0, 9, 9, [1], []⟩,
   ⟨1, "notehead-full", 0, 0, 9, 9, [2], []⟩, ⟨2, "stem", 0, 0, 9, 9, [], [1]⟩]

/-- C1: `match(p, r, t)` returns true iff the class names are equal, the
inclusive intersection width and height are both strictly positive, and
IoU = (iw·ih)/(area p + area r − iw·ih) is strictly greater than `t`
(inclusive-pixel areas); in particular it returns false whenever the class
names differ, regardless of geometry. -/
theorem matchObjects_true_iff (p r : CropObject) (t : ℚ) :
    (matchObjects p r t = true ↔
      (p.clsname = r.clsname ∧ 0 < interW p r ∧ 0 < interH p r ∧
        ((interW p r * interH p r : Int) : ℚ) /
          ((area p + area r - interW p r * interH p r : Int) : ℚ) > t)) ∧
    (p.clsname ≠ r.clsname → matchObjects p r t = false) := by
  unfold matchObjects area interW interH
  constructor
  · split_ifs <;> simp_all
  · intro hne
    split_ifs <;> simp_all

/-- Concrete instances of `matchObjects_true_iff`: the spec's §8 example
boxes p=(0,0,9,9), r=(5,5,14,14) of the same class have IoU 25/175 = 1/7,
hence no match at threshold 7/10 but a match at threshold 1/10; and a
geometrically identical pair with different class names does not match. -/
theorem matchObjects_true_iff_witness :
    matchObjects ⟨1, "notehead-full", 0, 0, 9, 9, [], []⟩
        ⟨2, "notehead-full", 5, 5, 14, 14, [], []⟩ (1/10) = true ∧
    matchObjects ⟨1, "notehead-full", 0, 0, 9, 9, [], []⟩
        ⟨2, "notehead-full", 5, 5, 14, 14, [], []⟩ (7/10) = false ∧
    matchObjects ⟨1, "stem", 0, 0, 9, 9, [], []⟩
        ⟨2, "beam", 0, 0, 9, 9, [], []⟩ (7/10) = false := by
  refine ⟨?_, ?_, ?_⟩
  · exact (matchObjects_true_iff _ _ _).1.mpr
      ⟨rfl, by decide, by decide, by norm_num [interW, interH, area]⟩
  · have h := (matchObjects_true_iff
      (⟨1, "notehead-full", 0, 0, 9, 9, [], []⟩ : CropObject)
      (⟨2, "notehead-full", 5, 5, 14, 14, [], []⟩ : CropObject) (7/10)).1
    by_contra hc
    simp only [Bool.not_eq_false] at hc
    have h2 := h.mp hc
    norm_num [interW, interH, area] at h2
  · exact (matchObjects_true_iff _ _ _).2 (by decide)


theorem updateNode_cons (q : Int × CropObject) (l : GraphMap) (k : Int)
    (f : CropObject → CropObject) :
    updateNode (q :: l) k f =
      (if q.1 = k then (q.1, f q.2) else q) :: updateNode l k f := rfl

theorem dictLookup_cons {α : Type} (q : Int × α) (l : List (Int × α)) (k : Int) :
    dictLookup k (q :: l) = if q.1 = k then some q.2 else dictLookup k l := rfl

theorem dictLookup_updateNode_self (g : GraphMap) (k : Int)
    (f : CropObject → CropObject) :
    dictLookup k (updateNode g k f) = (dictLookup k g).map f := by
  induction g with
  | nil => rfl
  | cons p rest ih =>
    rw [updateNode_cons]
    by_cases h : p.1 = k
    · rw [if_pos h, dictLookup_cons, dictLookup_cons, if_pos h, if_pos h]
      rfl
    · rw [if_neg h, dictLookup_cons, dictLookup_cons, if_neg h, if_neg h]
      exact ih

theorem dictLookup_updateNode_ne (g : GraphMap) (k k' : Int)
    (f : CropObject → CropObject) (hkk : k ≠ k') :
    dictLookup k (updateNode g k' f) = dictLookup k g := by
  induction g with
  | nil => rfl
  | cons p rest ih =>
    rw [updateNode_cons]
    by_cases h1 : p.1 = k'
    · have h2 : ¬ p.1 = k := by
        rw [h1]
        exact fun h => hkk h.symm
      rw [if_pos h1, dictLookup_cons, dictLookup_cons, if_neg h2, if_neg h2]
      exact ih
    · rw [if_neg h1, dictLookup_cons, dictLookup_cons]
      by_cases h2 : p.1 = k
      · rw [if_pos h2, if_pos h2]
      · rw [if_neg h2, if_neg h2]
        exact ih

theorem mem_double_update {g : GraphMap} {fr tn : Int} {p : Int × CropObject}
    (hp : p ∈ updateNode
        (updateNode g fr (fun o => setOutlinks o (o.outlinks ++ [tn])))
        tn (fun o => setInlinks o (o.inlinks ++ [fr]))) :
    ∃ q ∈ g, p.1 = q.1 ∧
      p.2.outlinks = (if q.1 = fr then q.2.outlinks ++ [tn] else q.2.outlinks) ∧
      p.2.inlinks = (if q.1 = tn then q.2.inlinks ++ [fr] else q.2.inlinks) := by
  simp only [updateNode, List.map_map, List.mem_map, Function.comp] at hp
  obtain ⟨q, hq, hpq⟩ := hp
  refine ⟨q, hq, ?_⟩
  subst hpq
  by_cases h1 : q.1 = fr
  · by_cases h2 : q.1 = tn
    · have hft : fr = tn := h1.symm.trans h2
      rw [if_pos h1]
      simp [h1, h2, hft, setOutlinks, setInlinks]
    · have hft : ¬ fr = tn := fun h => h2 (h1.trans h)
      rw [if_pos h1]
      simp [h1, h2, hft, setOutlinks, setInlinks]
  · rw [if_neg h1]
    by_cases h2 : q.1 = tn
    · have hft : ¬ tn = fr := fun h => h1 (h2.trans h)
      simp [h1, h2, hft, setOutlinks, setInlinks]
    · simp [h1, h2, setOutlinks, setInlinks]

/-- C2: if the id-to-object mapping satisfies the bidirectional edge
invariant and `add_edge_in_graph` returns normally, the resulting mapping
still satisfies the invariant. -/
theorem add_edge_in_graph_preserves_invariant
    (g g' : GraphMap) (fr tn : Int)
    (hinv : EdgeInvariant g)
    (hok : add_edge_in_graph fr tn g = .ok g') :
    EdgeInvariant g' := by
  unfold add_edge_in_graph at hok
  cases hf : dictLookup fr g with
  | none => simp [hf] at hok
  | some fo =>
    cases ht : dictLookup tn g with
    | none => simp [hf, ht] at hok
    | some td =>
      simp only [hf, ht] at hok
      split_ifs at hok with h1 h2 h3
      · -- edge already present on both sides: no-op, g' = g
        cases hok
        exact hinv
      · -- fresh edge: both sides appended
        cases hok
        intro pa hpa pb hpb
        obtain ⟨qa, hqa, hpa1, hpaOut, hpaIn⟩ := mem_double_update hpa
        obtain ⟨qb, hqb, hpb1, hpbOut, hpbIn⟩ := mem_double_update hpb
        rw [hpa1, hpb1, hpaOut, hpbIn]
        by_cases ha : qa.1 = fr <;> by_cases hb : qb.1 = tn
        · simp only [ha, hb, if_true, ite_true]
          constructor <;> intro _ <;> simp [List.mem_append]
        · simp only [ha, hb, if_true, ite_true, if_false, ite_false]
          constructor
          · intro hm
            rcases List.mem_append.mp hm with hm | hm
            · exact ha ▸ (hinv qa hqa qb hqb).mp hm
            · exact absurd (List.mem_singleton.mp hm) hb
          · intro hm
            exact List.mem_append.mpr
              (Or.inl ((hinv qa hqa qb hqb).mpr (ha ▸ hm)))
        · simp only [ha, hb, if_true, ite_true, if_false, ite_false]
          constructor
          · intro hm
            exact List.mem_append.mpr
              (Or.inl ((hinv qa hqa qb hqb).mp (hb ▸ hm)))
          · intro hm
            rcases List.mem_append.mp hm with hm | hm
            · exact hb ▸ (hinv qa hqa qb hqb).mpr hm
            · exact absurd (List.mem_singleton.mp hm) ha
        · simp only [ha, hb, if_false, ite_false]
          exact hinv qa hqa qb hqb

/-- C3: `add_edge_in_graph` fails with the unknown-node NotationGraphError
when either id is absent from the mapping, fails with the inconsistency
NotationGraphError when exactly one endpoint already records the edge, and
on a previously absent edge succeeds, appending `tn` to the from-node's
outlinks and `fr` to the to-node's inlinks in the one returned mapping
(both updates in the result or, on error, no result at all) while leaving
every other node unchanged. -/
theorem add_edge_in_graph_cases (g : GraphMap) (fr tn : Int) :
    (dictLookup fr g = none →
      add_edge_in_graph fr tn g = .error (.unknownNode fr)) ∧
    (∀ fo, dictLookup fr g = some fo → dictLookup tn g = none →
      add_edge_in_graph fr tn g = .error (.unknownNode tn)) ∧
    (∀ fo td, dictLookup fr g = some fo → dictLookup tn g = some td →
      ((tn ∈ fo.outlinks ∧ fr ∉ td.inlinks) ∨ (tn ∉ fo.outlinks ∧ fr ∈ td.inlinks)) →
      add_edge_in_graph fr tn g = .error (.inconsistent fr tn)) ∧
    (∀ fo td, dictLookup fr g = some fo → dictLookup tn g = some td →
      tn ∉ fo.outlinks → fr ∉ td.inlinks →
      ∃ g', add_edge_in_graph fr tn g = .ok g' ∧
        (∀ k, k ≠ fr → k ≠ tn → dictLookup k g' = dictLookup k g) ∧
        (fr ≠ tn →
          dictLookup fr g' = some (setOutlinks fo (fo.outlinks ++ [tn])) ∧
          dictLookup tn g' = some (setInlinks td (td.inlinks ++ [fr])))) := by
  refine ⟨?_, ?_, ?_, ?_⟩
  · intro hf
    unfold add_edge_in_graph
    rw [hf]
  · intro fo hf ht
    unfold add_edge_in_graph
    rw [hf, ht]
  · intro fo td hf ht hside
    unfold add_edge_in_graph
    rw [hf, ht]
    rcases hside with ⟨h1, h2⟩ | ⟨h1, h2⟩ <;> simp [h1, h2]
  · intro fo td hf ht h1 h2
    refine ⟨updateNode (updateNode g fr (fun o => setOutlinks o (o.outlinks ++ [tn])))
      tn (fun o => setInlinks o (o.inlinks ++ [fr])), ?_, ?_, ?_⟩
    · unfold add_edge_in_graph
      rw [hf, ht]
      simp [h1, h2]
    · intro k hk1 hk2
      rw [dictLookup_updateNode_ne _ _ _ _ hk2, dictLookup_updateNode_ne _ _ _ _ hk1]
    · intro hne
      constructor
      · rw [dictLookup_updateNode_ne _ _ _ _ hne, dictLookup_updateNode_self]
        rw [hf]
        rfl
      · rw [dictLookup_updateNode_self,
          dictLookup_updateNode_ne _ _ _ _ (fun h => hne h.symm)]
        rw [ht]
        rfl

/-- C8: if `add_edge_in_graph` succeeds, calling it again with the same pair
succeeds and returns the identical mapping: the edge is then present
consistently on both sides, so the second call takes the logged no-op
branch. -/
theorem add_edge_in_graph_idempotent (g g' : GraphMap) (fr tn : Int)
    (hok : add_edge_in_graph fr tn g = .ok g') :
    add_edge_in_graph fr tn g' = .ok g' := by
  unfold add_edge_in_graph at hok
  cases hf : dictLookup fr g with
  | none => simp [hf] at hok
  | some fo =>
    cases ht : dictLookup tn g with
    | none => simp [hf, ht] at hok
    | some td =>
      simp only [hf, ht] at hok
      split_ifs at hok with h1 h2 h3
      · -- first call was the consistent no-op: g' = g
        cases hok
        unfold add_edge_in_graph
        rw [hf, ht]
        simp [h1, h2]
      · -- first call appended both sides
        cases hok
        by_cases hne : fr = tn
        · subst hne
          have hfr : dictLookup fr (updateNode
              (updateNode g fr (fun o => setOutlinks o (o.outlinks ++ [fr])))
              fr (fun o => setInlinks o (o.inlinks ++ [fr]))) =
              some (setInlinks (setOutlinks fo (fo.outlinks ++ [fr]))
                ((setOutlinks fo (fo.outlinks ++ [fr])).inlinks ++ [fr])) := by
            rw [dictLookup_updateNode_self, dictLookup_updateNode_self]
            rw [hf]
            rfl
          unfold add_edge_in_graph
          rw [hfr]
          simp [setInlinks, setOutlinks]
        · have hfr : dictLookup fr (updateNode
              (updateNode g fr (fun o => setOutlinks o (o.outlinks ++ [tn])))
              tn (fun o => setInlinks o (o.inlinks ++ [fr]))) =
              some (setOutlinks fo (fo.outlinks ++ [tn])) := by
            rw [dictLookup_updateNode_ne _ _ _ _ hne, dictLookup_updateNode_self]
            rw [hf]
            rfl
          have htn : dictLookup tn (updateNode
              (updateNode g fr (fun o => setOutlinks o (o.outlinks ++ [tn])))
              tn (fun o => setInlinks o (o.inlinks ++ [fr]))) =
              some (setInlinks td (td.inlinks ++ [fr])) := by
            rw [dictLookup_updateNode_self,
              dictLookup_updateNode_ne _ _ _ _ (fun h => hne h.symm)]
            rw [ht]
            rfl
          unfold add_edge_in_graph
          rw [hfr, htn]
          simp [setInlinks, setOutlinks]

/-- C4: on a mapping containing both ids, `graph_has_edge` returns true when
both sides record the edge, false when neither does, and raises the
inconsistency NotationGraphError when exactly one side records it. -/
theorem graph_has_edge_cases (g : GraphMap) (fr tn : Int) (fo td : CropObject)
    (hf : dictLookup fr g = some fo) (ht : dictLookup tn g = some td) :
    (tn ∈ fo.outlinks → fr ∈ td.inlinks → graph_has_edge fr tn g = .ok true) ∧
    (tn ∉ fo.outlinks → fr ∉ td.inlinks → graph_has_edge fr tn g = .ok false) ∧
    (((tn ∈ fo.outlinks ∧ fr ∉ td.inlinks) ∨ (tn ∉ fo.outlinks ∧ fr ∈ td.inlinks)) →
      graph_has_edge fr tn g = .error (.inconsistent fr tn)) := by
  refine ⟨?_, ?_, ?_⟩
  · intro h1 h2
    unfold graph_has_edge
    rw [hf]
    simp only [h1, if_true, ite_true]
    rw [ht]
    simp [h2]
  · intro h1 h2
    unfold graph_has_edge
    rw [hf]
    simp only [h1, if_false, ite_false]
    rw [ht]
    simp [h2]
  · intro hside
    unfold graph_has_edge
    rcases hside with ⟨h1, h2⟩ | ⟨h1, h2⟩ <;> rw [hf] <;>
      simp only [h1, if_true, ite_true, if_false, ite_false] <;> rw [ht] <;> simp [h2]

/-- C10: `graph_has_edge` with an id absent from the mapping only logs a
warning and then raises a Python KeyError from the unguarded dict lookup of
that id; it neither returns false nor raises the graph-specific
NotationGraphError for the missing node (the `keyError` value is distinct
from both by construction). -/
theorem graph_has_edge_unknown_id_keyerror (g : GraphMap) (fr tn : Int) :
    (dictLookup fr g = none → graph_has_edge fr tn g = .error (.keyError fr)) ∧
    (∀ fo, dictLookup fr g = some fo → dictLookup tn g = none →
      graph_has_edge fr tn g = .error (.keyError tn)) := by
  constructor
  · intro hf
    unfold graph_has_edge
    rw [hf]
  · intro fo hf ht
    unfold graph_has_edge
    rw [hf]
    by_cases h1 : tn ∈ fo.outlinks <;>
      simp only [h1, if_true, ite_true, if_false, ite_false] <;> rw [ht]

/-- Concrete instance of C2: adding the edge 1 → 2 to the edgeless two-node
mapping preserves the invariant. -/
theorem add_edge_in_graph_preserves_invariant_witness : EdgeInvariant demoG' :=
  add_edge_in_graph_preserves_invariant demoG demoG' 1 2
    (by unfold EdgeInvariant; decide) (by rfl)

/-- Concrete instances of C3: unknown ids, a one-sided edge, and a
successful fresh insertion. -/
theorem add_edge_in_graph_cases_witness :
    add_edge_in_graph 5 1 demoG = .error (.unknownNode 5) ∧
    add_edge_in_graph 1 5 demoG = .error (.unknownNode 5) ∧
    add_edge_in_graph 1 2 demoGbad = .error (.inconsistent 1 2) ∧
    (∃ g', add_edge_in_graph 1 2 demoG = .ok g' ∧
      (∀ k, k ≠ 1 → k ≠ 2 → dictLookup k g' = dictLookup k demoG) ∧
      ((1 : Int) ≠ 2 →
        dictLookup 1 g' = some (setOutlinks ⟨1, "a", 0, 0, 0, 0, [], []⟩ ([] ++ [2])) ∧
        dictLookup 2 g' = some (setInlinks ⟨2, "b", 0, 0, 0, 0, [], []⟩ ([] ++ [1])))) :=
  ⟨(add_edge_in_graph_cases demoG 5 1).1 (by rfl),
   (add_edge_in_graph_cases demoG 1 5).2.1 _ (by rfl) (by rfl),
   (add_edge_in_graph_cases demoGbad 1 2).2.2.1 _ _ (by rfl) (by rfl)
     (Or.inl (by refine ⟨?_, ?_⟩ <;> decide)),
   (add_edge_in_graph_cases demoG 1 2).2.2.2 _ _ (by rfl) (by rfl)
     (by decide) (by decide)⟩

/-- Concrete instance of C8: re-adding the edge 1 → 2 after a successful
insertion is a no-op returning the identical mapping. -/
theorem add_edge_in_graph_idempotent_witness :
    add_edge_in_graph 1 2 demoG' = .ok demoG' :=
  add_edge_in_graph_idempotent demoG demoG' 1 2 (by rfl)

/-- Concrete instances of C4: a consistent edge reports true, no edge
reports false, and the manually forced one-sided state (2 inserted in the
outlinks of 1 without the reciprocal inlink) raises the inconsistency
error. -/
theorem graph_has_edge_cases_witness :
    graph_has_edge 1 2 demoG' = .ok true ∧
    graph_has_edge 1 2 demoG = .ok false ∧
    graph_has_edge 1 2 demoGbad = .error (.inconsistent 1 2) :=
  ⟨(graph_has_edge_cases demoG' 1 2 _ _ (by rfl) (by rfl)).1 (by decide) (by decide),
   (graph_has_edge_cases demoG 1 2 _ _ (by rfl) (by rfl)).2.1 (by decide) (by decide),
   (graph_has_edge_cases demoGbad 1 2 _ _ (by rfl) (by rfl)).2.2
     (Or.inl ⟨by decide, by decide⟩)⟩

/-- Concrete instances of C10: asking about the absent id 5 raises KeyError
for it, on either endpoint. -/
theorem graph_has_edge_unknown_id_keyerror_witness :
    graph_has_edge 5 1 demoG = .error (.keyError 5) ∧
    graph_has_edge 1 5 demoG = .error (.keyError 5) :=
  ⟨(graph_has_edge_unknown_id_keyerror demoG 5 1).1 (by rfl),
   (graph_has_edge_unknown_id_keyerror demoG 1 5).2 _ (by rfl) (by rfl)⟩


theorem scorePredEdges_ok_mapped (p2r : List (Int × Int)) (rOut : List Int) :
    ∀ pOut t, scorePredEdges p2r rOut pOut = .ok t →
      ∀ e ∈ pOut, (pyDictGet p2r e).isSome = true := by
  intro pOut
  induction pOut with
  | nil => intro t _ e he; cases he
  | cons a rest ih =>
    intro t hok e he
    unfold scorePredEdges at hok
    cases hm : pyDictGet p2r a with
    | none => rw [hm] at hok; cases hok
    | some m =>
      rw [hm] at hok
      cases hrest : scorePredEdges p2r rOut rest with
      | error err => rw [hrest] at hok; cases hok
      | ok t2 =>
        rcases List.mem_cons.mp he with he | he
        · simp [he, hm]
        · exact ih t2 hrest e he

theorem scorePredEdges_total (p2r : List (Int × Int)) (rOut : List Int) :
    ∀ pOut, (∀ e ∈ pOut, (pyDictGet p2r e).isSome = true) →
      scorePredEdges p2r rOut pOut =
        .ok (specTPcount p2r rOut pOut, specFPcount p2r rOut pOut) := by
  intro pOut
  induction pOut with
  | nil => intro _; rfl
  | cons a rest ih =>
    intro hmap
    have ha := hmap a (List.mem_cons_self a rest)
    obtain ⟨m, hm⟩ := Option.isSome_iff_exists.mp ha
    have hrest := ih (fun e he => hmap e (List.mem_cons_of_mem a he))
    unfold scorePredEdges
    rw [hm, hrest]
    by_cases hmem : m ∈ rOut
    · simp [specTPcount, specFPcount, hm, hmem]
    · simp [specTPcount, specFPcount, hm, hmem]

theorem scoreRefEdges_total (r2p : List (Int × Int)) (pOut : List Int) :
    ∀ rOut, (∀ e ∈ rOut, (pyDictGet r2p e).isSome = true) →
      scoreRefEdges r2p pOut rOut = .ok (specFNcount r2p pOut rOut) := by
  intro rOut
  induction rOut with
  | nil => intro _; rfl
  | cons a rest ih =>
    intro hmap
    have ha := hmap a (List.mem_cons_self a rest)
    obtain ⟨m, hm⟩ := Option.isSome_iff_exists.mp ha
    have hrest := ih (fun e he => hmap e (List.mem_cons_of_mem a he))
    unfold scoreRefEdges
    rw [hm, hrest]
    by_cases hmem : m ∈ pOut
    · simp [specFNcount, hm, hmem]
    · simp [specFNcount, hm, hmem]

theorem scorePairs_total (p2r r2p : List (Int × Int)) (preds refs : GraphMap) :
    ∀ pairs, PairsTotal p2r r2p preds refs pairs →
      scorePairs p2r r2p preds refs pairs =
        .ok (specTotals p2r r2p preds refs pairs) := by
  intro pairs
  induction pairs with
  | nil => intro _; rfl
  | cons pr rest ih =>
    intro htot
    obtain ⟨h1, h2, h3, h4⟩ := htot pr (List.mem_cons_self pr rest)
    obtain ⟨po, hpo⟩ := Option.isSome_iff_exists.mp h1
    obtain ⟨ro, hro⟩ := Option.isSome_iff_exists.mp h2
    rw [hpo] at h3
    rw [hro] at h4
    simp only [Option.getD_some] at h3 h4
    have hrest := ih (fun q hq => htot q (List.mem_cons_of_mem pr hq))
    have h5 := scorePredEdges_total p2r ro.outlinks po.outlinks h3
    have h6 := scoreRefEdges_total r2p po.outlinks ro.outlinks h4
    unfold scorePairs specTotals
    simp only [hpo, hro, h5, h6, hrest, Option.getD_some]

theorem scorePairs_ok_mapped (p2r r2p : List (Int × Int)) (preds refs : GraphMap) :
    ∀ pairs t, scorePairs p2r r2p preds refs pairs = .ok t →
      ∀ pr ∈ pairs, ∀ po, dictLookup pr.1 preds = some po →
        ∀ e ∈ po.outlinks, (pyDictGet p2r e).isSome = true := by
  intro pairs
  induction pairs with
  | nil => intro t _ pr hpr; cases hpr
  | cons q rest ih =>
    intro t hok pr hpr po hpo e he
    unfold scorePairs at hok
    split at hok
    · cases hok
    · next po2 hq1 =>
      split at hok
      · cases hok
      · next ro2 hq2 =>
        split at hok
        · cases hok
        · next t2 hpe =>
          split at hok
          · cases hok
          · next fn hre =>
            split at hok
            · cases hok
            · next t3 hrest =>
              rcases List.mem_cons.mp hpr with hpr | hpr
              · subst hpr
                rw [hpo] at hq1
                cases hq1
                exact scorePredEdges_ok_mapped p2r ro2.outlinks po.outlinks t2 hpe e he
              · exact ih t3 hrest pr hpr po hpo e he

/-- C5 counterexample: with the single matched pair (1, 10) and the
predicted outgoing edge 1 → 2 whose target 2 has no entry in the
prediction-to-reference mapping, the evaluation does not count a false
positive and complete normally; it raises KeyError 2 at the unguarded dict
access of line 116. -/
theorem evaluateEdges_unmapped_target_raises :
    evaluateEdges [(1, 10)] cexPreds cexRefs = .error (.keyError 2) := by rfl

/-- C5 (amended): for every matched pair (p, r) and every outgoing edge
p → p2, a true positive is counted when p2's mapped reference id is among
r's outlinks and a false positive otherwise, provided every such target has
an entry in the prediction-to-reference mapping (and symmetrically on the
reference side); when the evaluation completes normally every outgoing
target of a matched predicted object necessarily had a mapping entry — an
unmapped target instead raises KeyError, it is never counted as a false
positive. -/
theorem evaluateEdges_spec (matching : List (Int × Int)) (preds refs : GraphMap) :
    (PairsTotal matching (matching.map (fun q => (q.2, q.1))) preds refs matching →
      evaluateEdges matching preds refs =
        .ok (specTotals matching (matching.map (fun q => (q.2, q.1)))
          preds refs matching)) ∧
    (∀ t, evaluateEdges matching preds refs = .ok t →
      ∀ pr ∈ matching, ∀ po, dictLookup pr.1 preds = some po →
        ∀ e ∈ po.outlinks, (pyDictGet matching e).isSome = true) := by
  constructor
  · intro htot
    unfold evaluateEdges
    exact scorePairs_total matching (matching.map (fun q => (q.2, q.1)))
      preds refs matching htot
  · intro t hok
    unfold evaluateEdges at hok
    exact scorePairs_ok_mapped matching (matching.map (fun q => (q.2, q.1)))
      preds refs matching t hok

/-- Concrete instance of C5 (amended): on the fully matched two-pair
example, the evaluation completes with the spec-side counts, which evaluate
to TP = 1, FP = 0, FN = 0. -/
theorem evaluateEdges_spec_witness :
    evaluateEdges demoMatching demoPreds demoRefs =
      .ok (specTotals demoMatching (demoMatching.map (fun q => (q.2, q.1)))
        demoPreds demoRefs demoMatching) ∧
    specTotals demoMatching (demoMatching.map (fun q => (q.2, q.1)))
        demoPreds demoRefs demoMatching = (1, 0, 0) :=
  ⟨(evaluateEdges_spec demoMatching demoPreds demoRefs).1
      (by unfold PairsTotal; decide),
   by rfl⟩

/-- C6 counterexample: at TP = FP = FN = 0 the script raises
ZeroDivisionError instead of reporting an undefined value. -/
theorem f1FromCounts_zero_denominator_raises :
    f1FromCounts 0 0 0 = .error .zeroDivision := by
  simp [f1FromCounts]

/-- C6 (amended): the script computes only the F-score, as
2·TP/(2·TP+FP+FN), succeeding exactly when the denominator is nonzero; a
zero denominator raises ZeroDivisionError rather than reporting an
undefined value, and precision and recall are not computed on this code
path at all. -/
theorem f1FromCounts_spec (tp fp fn : Nat) :
    (2 * (tp : ℚ) + (fp : ℚ) + (fn : ℚ) ≠ 0 →
      f1FromCounts tp fp fn =
        .ok (2 * (tp : ℚ) / (2 * (tp : ℚ) + (fp : ℚ) + (fn : ℚ)))) ∧
    (2 * (tp : ℚ) + (fp : ℚ) + (fn : ℚ) = 0 →
      f1FromCounts tp fp fn = .error .zeroDivision) := by
  constructor <;> intro h <;> simp [f1FromCounts, h]

/-- Concrete instances of C6 (amended): TP=1, FP=0, FN=1 gives F1 = 2/3;
TP=FP=FN=0 raises ZeroDivisionError. -/
theorem f1FromCounts_spec_witness :
    f1FromCounts 1 0 1 = .ok (2/3) ∧
    f1FromCounts 0 0 0 = .error .zeroDivision := by
  constructor
  · have h := (f1FromCounts_spec 1 0 1).1 (by norm_num)
    rw [h]
    norm_num
  · exact (f1FromCounts_spec 0 0 0).2 (by norm_num)



theorem evaluate_clf_support (p t : List Nat) : (evaluate_clf p t).support = none := rfl

theorem bucketStep_eq (tc pc : List Nat) (ms : Nat)
    (b : (String × String) × List Nat)
    (acc : List ((String × String) × CPResult)) :
    bucketStep tc pc ms b acc =
      if b.2.length < ms then acc
      else (b.1,
        ⟨(evaluate_clf (b.2.map (fun i => pc.getD i 0))
            (b.2.map (fun i => tc.getD i 0))).recall',
         (evaluate_clf (b.2.map (fun i => pc.getD i 0))
            (b.2.map (fun i => tc.getD i 0))).precision,
         (evaluate_clf (b.2.map (fun i => pc.getD i 0))
            (b.2.map (fun i => tc.getD i 0))).fscore,
         b.2.length⟩) :: acc := rfl

theorem bucket_fold_sub (tc pc : List Nat) (ms : Nat) :
    ∀ (L : List ((String × String) × List Nat)) k res,
      (k, res) ∈ L.foldr (bucketStep tc pc ms) [] →
      ∃ cpi, (k, cpi) ∈ L ∧ res.support = cpi.length ∧ ms ≤ cpi.length := by
  intro L
  induction L with
  | nil => intro k res h; cases h
  | cons b rest ih =>
    intro k res h
    rw [List.foldr_cons, bucketStep_eq] at h
    by_cases hlt : b.2.length < ms
    · rw [if_pos hlt] at h
      obtain ⟨cpi, h1, h2, h3⟩ := ih k res h
      exact ⟨cpi, List.mem_cons_of_mem b h1, h2, h3⟩
    · rw [if_neg hlt] at h
      rcases List.mem_cons.mp h with h | h
      · cases h
        exact ⟨b.2, by simp, rfl, Nat.le_of_not_lt hlt⟩
      · obtain ⟨cpi, h1, h2, h3⟩ := ih k res h
        exact ⟨cpi, List.mem_cons_of_mem b h1, h2, h3⟩

theorem bucket_fold_mem (tc pc : List Nat) (ms : Nat) :
    ∀ (L : List ((String × String) × List Nat)) k cpi,
      (k, cpi) ∈ L → ms ≤ cpi.length →
      ∃ res, (k, res) ∈ L.foldr (bucketStep tc pc ms) [] ∧
        res.support = cpi.length := by
  intro L
  induction L with
  | nil => intro k cpi h; cases h
  | cons b rest ih =>
    intro k cpi hmem hms
    rw [List.foldr_cons, bucketStep_eq]
    rcases List.mem_cons.mp hmem with h | h
    · obtain ⟨bk, bcpi⟩ := b
      obtain ⟨hk, hc⟩ := Prod.mk.injEq .. ▸ h
      subst hk
      subst hc
      rw [if_neg (Nat.not_lt.mpr hms)]
      exact ⟨_, List.mem_cons_self _ _, rfl⟩
    · by_cases hlt : b.2.length < ms
      · rw [if_pos hlt]
        exact ih k cpi h hms
      · rw [if_neg hlt]
        obtain ⟨res, h1, h2⟩ := ih k cpi h hms
        exact ⟨res, List.mem_cons_of_mem _ h1, h2⟩

theorem mem_insertBySupport (b x : (String × String) × CPResult) :
    ∀ l : List ((String × String) × CPResult),
      x ∈ insertBySupport b l ↔ x = b ∨ x ∈ l := by
  intro l
  induction l with
  | nil => simp [insertBySupport]
  | cons c rest ih =>
    unfold insertBySupport
    by_cases h : c.2.support < b.2.support
    · rw [if_pos h]
      simp
    · rw [if_neg h]
      simp only [List.mem_cons, ih]
      tauto

theorem mem_sortBySupport (x : (String × String) × CPResult) :
    ∀ l acc : List ((String × String) × CPResult),
      x ∈ l.foldl (fun acc b => insertBySupport b acc) acc ↔
      x ∈ l ∨ x ∈ acc := by
  intro l
  induction l with
  | nil => simp
  | cons b rest ih =>
    intro acc
    rw [List.foldl_cons, ih, mem_insertBySupport]
    simp only [List.mem_cons]
    tauto

/-- C9: a class-pair bucket is in the output of
`evaluate_classification_by_class_pairs` iff its support — the size of its
index bucket — is at least `min_support` (source default 10; a support-9
bucket is excluded at `min_support` 10 while a support-10 bucket is
included, see the witness); excluded buckets are simply absent. And
`print_class_pair_results` prints a bucket only if it is one of its input
buckets with support at least its own `min_support` (source default 20). -/
theorem class_pair_results_min_support (mf mt : List CropObject)
    (tc pc : List Nat) (ms : Nat) :
    (∀ k res, (k, res) ∈ evaluate_classification_by_class_pairs mf mt tc pc ms →
      ∃ cpi, (k, cpi) ∈ classPairIndex (classPairsOf mf mt tc pc) ∧
        res.support = cpi.length ∧ ms ≤ cpi.length) ∧
    (∀ k cpi, (k, cpi) ∈ classPairIndex (classPairsOf mf mt tc pc) →
      ms ≤ cpi.length →
      ∃ res, (k, res) ∈ evaluate_classification_by_class_pairs mf mt tc pc ms ∧
        res.support = cpi.length) ∧
    (∀ results minS b, b ∈ print_class_pair_results results minS →
      b ∈ results ∧ minS ≤ b.2.support) := by
  refine ⟨?_, ?_, ?_⟩
  · intro k res h
    exact bucket_fold_sub tc pc ms _ k res h
  · intro k cpi hmem hms
    exact bucket_fold_mem tc pc ms _ k cpi hmem hms
  · intro results minS b hb
    unfold print_class_pair_results at hb
    obtain ⟨h1, h2⟩ := List.mem_filter.mp hb
    refine ⟨?_, by simpa using h2⟩
    rcases (mem_sortBySupport b results []).mp h1 with h | h
    · exact h
    · cases h

/-- Concrete instance of C9: with ten (a, b) examples and nine (c, d)
examples at `min_support` 10, the (a, b) bucket (support 10) is included,
the (c, d) bucket (support 9) is absent from the output, and a printed
bucket of support 25 at `min_support` 20 is one of the input buckets with
support at least 20. -/
theorem class_pair_results_min_support_witness :
    (∃ res, (("a", "b"), res) ∈
      evaluate_classification_by_class_pairs wMF wMT wTC wPC 10) ∧
    (evaluate_classification_by_class_pairs wMF wMT wTC wPC 10).map Prod.fst =
      [("a", "b")] ∧
    ((("a", "b"), (⟨1, 1, 1, 25⟩ : CPResult)) ∈
        [(("a", "b"), (⟨1, 1, 1, 25⟩ : CPResult))] ∧
      (20 : Nat) ≤ 25) := by
  refine ⟨?_, by rfl, ?_⟩
  · obtain ⟨res, hmem, _⟩ :=
      (class_pair_results_min_support wMF wMT wTC wPC 10).2.1
        ("a", "b") [0, 1, 2, 3, 4, 5, 6, 7, 8, 9] (by decide) (by decide)
    exact ⟨res, hmem⟩
  · exact (class_pair_results_min_support wMF wMT wTC wPC 10).2.2
      [(("a", "b"), ⟨1, 1, 1, 25⟩)] 20 (("a", "b"), ⟨1, 1, 1, 25⟩) (by decide)



theorem storeGet_set (s : Store) : ∀ (a b : Nat) (o : CropObject),
    storeGet (s.set a o) b =
      if b = a then (storeGet s a).map (fun _ => o) else storeGet s b := by
  induction s with
  | nil => intro a b o; simp [storeGet]
  | cons c rest ih =>
    intro a b o
    cases a with
    | zero =>
      cases b with
      | zero => simp [storeGet]
      | succ b' => simp [storeGet]
    | succ a' =>
      cases b with
      | zero => simp [storeGet]
      | succ b' =>
        simp only [storeGet, List.set_cons_succ, List.get?_cons_succ] at *
        rw [ih a' b' o]
        by_cases h : b' = a' <;> simp [h]

theorem storeGet_storeUpdate (s : Store) (a b : Nat)
    (f : CropObject → CropObject) :
    storeGet (storeUpdate s a f) b =
      if b = a then (storeGet s a).map f else storeGet s b := by
  unfold storeUpdate
  cases ha : storeGet s a with
  | none => by_cases h : b = a <;> simp [h, ha]
  | some o =>
    rw [storeGet_set]
    by_cases h : b = a <;> simp [h, ha]

theorem dictLookup_mem {α : Type} (k : Int) : ∀ (l : List (Int × α)) v,
    dictLookup k l = some v → (k, v) ∈ l := by
  intro l
  induction l with
  | nil => intro v h; cases h
  | cons p rest ih =>
    intro v h
    unfold dictLookup at h
    by_cases hp : p.1 = k
    · rw [if_pos hp] at h
      injection h with hv
      subst hv
      subst hp
      exact List.mem_cons.mpr (Or.inl rfl)
    · rw [if_neg hp] at h
      exact List.mem_cons_of_mem p (ih v h)

theorem pyDictGet_mem {α : Type} (l : List (Int × α)) (k : Int) (v : α)
    (h : pyDictGet l k = some v) : (k, v) ∈ l :=
  List.mem_reverse.mp (dictLookup_mem k l.reverse v h)

theorem mkIdMap_mem : ∀ (copies : List CropObject) (base : Nat)
    (p : Int × Nat), p ∈ mkIdMap copies base →
    ∃ i, i < copies.length ∧ p.2 = base + i ∧
      ∃ c, copies.get? i = some c ∧ p.1 = c.objid := by
  intro copies
  induction copies with
  | nil => intro base p h; cases h
  | cons c rest ih =>
    intro base p h
    unfold mkIdMap at h
    rcases List.mem_cons.mp h with h | h
    · subst h
      exact ⟨0, by simp, by simp, c, by simp [storeGet], rfl⟩
    · obtain ⟨i, hi, hp2, c2, hc2, hp1⟩ := ih (base + 1) p h
      refine ⟨i + 1, by simpa using Nat.succ_lt_succ hi, by omega, c2, ?_, hp1⟩
      simpa using hc2

theorem mkIdMap_addr_ge (copies : List CropObject) (base : Nat)
    (p : Int × Nat) (h : p ∈ mkIdMap copies base) : base ≤ p.2 := by
  obtain ⟨i, _, hp2, _⟩ := mkIdMap_mem copies base p h
  omega

theorem mkIdMap_inj (copies : List CropObject) (base : Nat) :
    AddrInj (mkIdMap copies base) := by
  intro p hp q hq he
  obtain ⟨i, hi, hp2, c, hc, hp1⟩ := mkIdMap_mem copies base p hp
  obtain ⟨j, hj, hq2, c2, hc2, hq1⟩ := mkIdMap_mem copies base q hq
  have hij : i = j := by omega
  subst hij
  rw [hc] at hc2
  injection hc2 with hcc
  subst hcc
  have h1 : p.1 = q.1 := hp1.trans hq1.symm
  have h2 : p.2 = q.2 := he
  obtain ⟨px, py⟩ := p
  obtain ⟨qx, qy⟩ := q
  simp only at h1 h2
  rw [h1, h2]

theorem mkIdMap_length : ∀ (copies : List CropObject) (base : Nat),
    (mkIdMap copies base).length = copies.length := by
  intro copies
  induction copies with
  | nil => intro base; rfl
  | cons c rest ih => intro base; simp [mkIdMap, ih]

theorem mkIdMap_snd_get? : ∀ (copies : List CropObject) (base i : Nat),
    i < copies.length →
    ((mkIdMap copies base).map (fun p => p.2)).get? i = some (base + i) := by
  intro copies
  induction copies with
  | nil => intro base i h; cases h
  | cons c rest ih =>
    intro base i h
    cases i with
    | zero => simp [mkIdMap]
    | succ i' =>
      have h' : i' < rest.length := by simpa using h
      have := ih (base + 1) i' h'
      simp only [mkIdMap, List.map_cons, List.get?_cons_succ]
      rw [this]
      congr 1
      omega

theorem mkIdMap_coherent : ∀ (copies : List CropObject) (s : Store),
    Coherent (mkIdMap copies s.length) (s ++ copies) := by
  intro copies
  induction copies with
  | nil => intro s p hp; cases hp
  | cons c rest ih =>
    intro s p hp
    unfold mkIdMap at hp
    rcases List.mem_cons.mp hp with h | h
    · subst h
      refine ⟨c, ?_, rfl⟩
      show (s ++ c :: rest).get? s.length = some c
      rw [List.get?_append_right (Nat.le_refl _)]
      simp
    · have hlen : s.length + 1 = (s ++ [c]).length := by simp
      have hmem : p ∈ mkIdMap rest (s ++ [c]).length := by
        rw [← hlen]
        exact h
      have := ih (s ++ [c]) p hmem
      obtain ⟨o, ho, hid⟩ := this
      refine ⟨o, ?_, hid⟩
      rw [← ho]
      show (s ++ c :: rest).get? p.2 = (s ++ [c] ++ rest).get? p.2
      rw [List.append_assoc]
      rfl



theorem addEdgeH_frame (f t : Int) (idMap : IdMap) (s s' : Store)
    (base : Nat) (hb : ∀ p ∈ idMap, base ≤ p.2)
    (hok : addEdgeH f t idMap s = .ok s') :
    ∀ a, a < base → storeGet s' a = storeGet s a := by
  intro a ha
  unfold addEdgeH at hok
  split at hok
  · cases hok
  · next fa hfa =>
    split at hok
    · cases hok
    · next ta hta =>
      split at hok
      · next fo td hfo htd =>
        split at hok
        · split at hok
          · cases hok
            rfl
          · cases hok
        · split at hok
          · cases hok
          · cases hok
            have hmf : base ≤ fa := hb (f, fa) (pyDictGet_mem idMap f fa hfa)
            have hmt : base ≤ ta := hb (t, ta) (pyDictGet_mem idMap t ta hta)
            rw [storeGet_storeUpdate, if_neg (by omega), storeGet_storeUpdate,
              if_neg (by omega)]
      · cases hok

theorem removeEdgeH_frame (f t : Int) (idMap : IdMap) (s s' : Store)
    (base : Nat) (hb : ∀ p ∈ idMap, base ≤ p.2)
    (hok : removeEdgeH f t idMap s = .ok s') :
    ∀ a, a < base → storeGet s' a = storeGet s a := by
  intro a ha
  unfold removeEdgeH at hok
  split at hok
  · cases hok
  · next fa hfa =>
    split at hok
    · cases hok
    · next ta hta =>
      split at hok
      · next fo td hfo htd =>
        split at hok
        · split at hok
          · cases hok
            have hmf : base ≤ fa := hb (f, fa) (pyDictGet_mem idMap f fa hfa)
            have hmt : base ≤ ta := hb (t, ta) (pyDictGet_mem idMap t ta hta)
            rw [storeGet_storeUpdate, if_neg (by omega), storeGet_storeUpdate,
              if_neg (by omega)]
          · cases hok
        · split at hok
          · cases hok
          · cases hok
            rfl
      · cases hok

theorem applyDecisions_frame (idMap : IdMap) (base : Nat)
    (hb : ∀ p ∈ idMap, base ≤ p.2) :
    ∀ ds s s', applyDecisions idMap s ds = .ok s' →
      ∀ a, a < base → storeGet s' a = storeGet s a := by
  intro ds
  induction ds with
  | nil =>
    intro s s' hok a ha
    cases hok
    rfl
  | cons d rest ih =>
    intro s s' hok a ha
    unfold applyDecisions at hok
    split at hok
    · split at hok
      · cases hok
      · next s2 hadd =>
        rw [ih s2 s' hok a ha, addEdgeH_frame _ _ _ _ _ _ hb hadd a ha]
    · split at hok
      · cases hok
      · next b hhas =>
        split at hok
        · split at hok
          · cases hok
          · next s2 hrem =>
            rw [ih s2 s' hok a ha, removeEdgeH_frame _ _ _ _ _ _ hb hrem a ha]
        · exact ih s s' hok a ha

theorem sameShape_refl (o : CropObject) : SameShape o o :=
  ⟨rfl, rfl, rfl, rfl, rfl, rfl⟩

theorem sameShape_trans {a b c : CropObject}
    (h1 : SameShape a b) (h2 : SameShape b c) : SameShape a c := by
  obtain ⟨x1, x2, x3, x4, x5, x6⟩ := h1
  obtain ⟨y1, y2, y3, y4, y5, y6⟩ := h2
  exact ⟨x1.trans y1, x2.trans y2, x3.trans y3, x4.trans y4,
    x5.trans y5, x6.trans y6⟩

theorem setOutlinks_shape (o : CropObject) (l : List Int) :
    SameShape o (setOutlinks o l) := ⟨rfl, rfl, rfl, rfl, rfl, rfl⟩

theorem setInlinks_shape (o : CropObject) (l : List Int) :
    SameShape o (setInlinks o l) := ⟨rfl, rfl, rfl, rfl, rfl, rfl⟩

theorem clearLinks_shape (o : CropObject) :
    SameShape o (clearLinks o) := ⟨rfl, rfl, rfl, rfl, rfl, rfl⟩

theorem storeUpdate_shape (s : Store) (a : Nat) (f : CropObject → CropObject)
    (hf : ∀ o, SameShape o (f o)) :
    ∀ b o', storeGet (storeUpdate s a f) b = some o' →
      ∃ o, storeGet s b = some o ∧ SameShape o o' := by
  intro b o' h
  rw [storeGet_storeUpdate] at h
  by_cases hb : b = a
  · rw [if_pos hb] at h
    cases ho : storeGet s a with
    | none => rw [ho] at h; cases h
    | some o =>
      rw [ho] at h
      injection h with h
      subst h
      exact ⟨o, by rw [hb]; exact ho, hf o⟩
  · rw [if_neg hb] at h
    exact ⟨o', h, sameShape_refl o'⟩

theorem addEdgeH_shape (f t : Int) (idMap : IdMap) (s s' : Store)
    (hok : addEdgeH f t idMap s = .ok s') :
    ∀ a o', storeGet s' a = some o' →
      ∃ o, storeGet s a = some o ∧ SameShape o o' := by
  intro a o' h
  unfold addEdgeH at hok
  split at hok
  · cases hok
  · next fa hfa =>
    split at hok
    · cases hok
    · next ta hta =>
      split at hok
      · next fo td hfo htd =>
        split at hok
        · split at hok
          · cases hok
            exact ⟨o', h, sameShape_refl o'⟩
          · cases hok
        · split at hok
          · cases hok
          · cases hok
            obtain ⟨o1, h1, hs1⟩ := storeUpdate_shape _ ta _
              (fun o => setInlinks_shape o (o.inlinks ++ [f])) a o' h
            obtain ⟨o0, h0, hs0⟩ := storeUpdate_shape _ fa _
              (fun o => setOutlinks_shape o (o.outlinks ++ [t])) a o1 h1
            exact ⟨o0, h0, sameShape_trans hs0 hs1⟩
      · cases hok

theorem removeEdgeH_shape (f t : Int) (idMap : IdMap) (s s' : Store)
    (hok : removeEdgeH f t idMap s = .ok s') :
    ∀ a o', storeGet s' a = some o' →
      ∃ o, storeGet s a = some o ∧ SameShape o o' := by
  intro a o' h
  unfold removeEdgeH at hok
  split at hok
  · cases hok
  · next fa hfa =>
    split at hok
    · cases hok
    · next ta hta =>
      split at hok
      · next fo td hfo htd =>
        split at hok
        · split at hok
          · cases hok
            obtain ⟨o1, h1, hs1⟩ := storeUpdate_shape _ ta _
              (fun o => setInlinks_shape o (o.inlinks.erase f)) a o' h
            obtain ⟨o0, h0, hs0⟩ := storeUpdate_shape _ fa _
              (fun o => setOutlinks_shape o (o.outlinks.erase t)) a o1 h1
            exact ⟨o0, h0, sameShape_trans hs0 hs1⟩
          · cases hok
        · split at hok
          · cases hok
          · cases hok
            exact ⟨o', h, sameShape_refl o'⟩
      · cases hok

theorem applyDecisions_shape (idMap : IdMap) :
    ∀ ds s s', applyDecisions idMap s ds = .ok s' →
      ∀ a o', storeGet s' a = some o' →
        ∃ o, storeGet s a = some o ∧ SameShape o o' := by
  intro ds
  induction ds with
  | nil =>
    intro s s' hok a o' h
    cases hok
    exact ⟨o', h, sameShape_refl o'⟩
  | cons d rest ih =>
    intro s s' hok a o' h
    unfold applyDecisions at hok
    split at hok
    · split at hok
      · cases hok
      · next s2 hadd =>
        obtain ⟨o1, h1, hs1⟩ := ih s2 s' hok a o' h
        obtain ⟨o0, h0, hs0⟩ := addEdgeH_shape _ _ _ _ _ hadd a o1 h1
        exact ⟨o0, h0, sameShape_trans hs0 hs1⟩
    · split at hok
      · cases hok
      · next b hhas =>
        split at hok
        · split at hok
          · cases hok
          · next s2 hrem =>
            obtain ⟨o1, h1, hs1⟩ := ih s2 s' hok a o' h
            obtain ⟨o0, h0, hs0⟩ := removeEdgeH_shape _ _ _ _ _ hrem a o1 h1
            exact ⟨o0, h0, sameShape_trans hs0 hs1⟩
        · exact ih s s' hok a o' h



theorem storeGet_double_update (s : Store) (fa ta : Nat)
    (F G : CropObject → CropObject) (x : Nat) :
    storeGet (storeUpdate (storeUpdate s fa F) ta G) x =
      if x = ta then
        (if ta = fa then (storeGet s fa).map F else storeGet s ta).map G
      else if x = fa then (storeGet s fa).map F else storeGet s x := by
  rw [storeGet_storeUpdate, storeGet_storeUpdate, storeGet_storeUpdate]

theorem addEdgeH_inv (f t : Int) (idMap : IdMap) (s s' : Store)
    (D : List (Int × Int × Int))
    (hinj : AddrInj idMap) (hcoh : Coherent idMap s)
    (hprov : EdgesFromDecisions idMap s D)
    (hd : (f, t, 1) ∈ D)
    (hok : addEdgeH f t idMap s = .ok s') :
    Coherent idMap s' ∧ EdgesFromDecisions idMap s' D := by
  unfold addEdgeH at hok
  split at hok
  · cases hok
  · next fa hfa =>
    split at hok
    · cases hok
    · next ta hta =>
      split at hok
      · next fo td hfo htd =>
        split at hok
        · split at hok
          · cases hok
            exact ⟨hcoh, hprov⟩
          · cases hok
        · split at hok
          · cases hok
          · cases hok
            have hmemf : (f, fa) ∈ idMap := pyDictGet_mem idMap f fa hfa
            have hmemt : (t, ta) ∈ idMap := pyDictGet_mem idMap t ta hta
            constructor
            · intro p hp
              obtain ⟨o, ho, hid⟩ := hcoh p hp
              rw [storeGet_double_update]
              by_cases h2 : p.2 = ta
              · rw [if_pos h2]
                by_cases hft : ta = fa
                · rw [if_pos hft, hfo]
                  refine ⟨_, rfl, ?_⟩
                  have : o = fo := by
                    rw [h2, hft, hfo] at ho
                    injection ho with ho
                    exact ho.symm
                  subst this
                  simpa [setOutlinks, setInlinks] using hid
                · rw [if_neg hft, htd]
                  refine ⟨_, rfl, ?_⟩
                  have : o = td := by
                    rw [h2, htd] at ho
                    injection ho with ho
                    exact ho.symm
                  subst this
                  simpa [setInlinks] using hid
              · rw [if_neg h2]
                by_cases h1 : p.2 = fa
                · rw [if_pos h1, hfo]
                  refine ⟨_, rfl, ?_⟩
                  have : o = fo := by
                    rw [h1, hfo] at ho
                    injection ho with ho
                    exact ho.symm
                  subst this
                  simpa [setOutlinks] using hid
                · rw [if_neg h1]
                  exact ⟨o, ho, hid⟩
            · intro p hp o' ho'
              rw [storeGet_double_update] at ho'
              by_cases h2 : p.2 = ta
              · rw [if_pos h2] at ho'
                have hpt : p = (t, ta) := hinj p hp (t, ta) hmemt h2
                by_cases hft : ta = fa
                · rw [if_pos hft, hfo] at ho'
                  injection ho' with ho'
                  subst ho'
                  have hpf : p = (f, fa) := hinj p hp (f, fa) hmemf (h2.trans hft)
                  have hold := hprov p hp fo (by rw [h2, hft]; exact hfo)
                  constructor
                  · intro b hb
                    simp only [setInlinks, setOutlinks] at hb
                    rcases List.mem_append.mp hb with hb | hb
                    · exact hold.1 b hb
                    · have : b = t := List.mem_singleton.mp hb
                      subst this
                      have : p.1 = f := by rw [hpf]
                      rw [this]
                      exact hd
                  · intro c hc
                    simp only [setInlinks, setOutlinks] at hc
                    rcases List.mem_append.mp hc with hc | hc
                    · exact hold.2 c hc
                    · have : c = f := List.mem_singleton.mp hc
                      subst this
                      have hp1 : p.1 = t := by rw [hpt]
                      rw [hp1]
                      exact hd
                · rw [if_neg hft, htd] at ho'
                  injection ho' with ho'
                  subst ho'
                  have hold := hprov p hp td (by rw [h2]; exact htd)
                  constructor
                  · intro b hb
                    simp only [setInlinks] at hb
                    exact hold.1 b hb
                  · intro c hc
                    simp only [setInlinks] at hc
                    rcases List.mem_append.mp hc with hc | hc
                    · exact hold.2 c hc
                    · have : c = f := List.mem_singleton.mp hc
                      subst this
                      have hp1 : p.1 = t := by rw [hpt]
                      rw [hp1]
                      exact hd
              · rw [if_neg h2] at ho'
                by_cases h1 : p.2 = fa
                · rw [if_pos h1, hfo] at ho'
                  injection ho' with ho'
                  subst ho'
                  have hpf : p = (f, fa) := hinj p hp (f, fa) hmemf h1
                  have hold := hprov p hp fo (by rw [h1]; exact hfo)
                  constructor
                  · intro b hb
                    simp only [setOutlinks] at hb
                    rcases List.mem_append.mp hb with hb | hb
                    · exact hold.1 b hb
                    · have : b = t := List.mem_singleton.mp hb
                      subst this
                      have : p.1 = f := by rw [hpf]
                      rw [this]
                      exact hd
                  · intro c hc
                    simp only [setOutlinks] at hc
                    exact hold.2 c hc
                · rw [if_neg h1] at ho'
                  exact hprov p hp o' ho'
      · cases hok

theorem removeEdgeH_inv (f t : Int) (idMap : IdMap) (s s' : Store)
    (D : List (Int × Int × Int))
    (hcoh : Coherent idMap s) (hprov : EdgesFromDecisions idMap s D)
    (hok : removeEdgeH f t idMap s = .ok s') :
    Coherent idMap s' ∧ EdgesFromDecisions idMap s' D := by
  unfold removeEdgeH at hok
  split at hok
  · cases hok
  · next fa hfa =>
    split at hok
    · cases hok
    · next ta hta =>
      split at hok
      · next fo td hfo htd =>
        split at hok
        · split at hok
          · cases hok
            constructor
            · intro p hp
              obtain ⟨o, ho, hid⟩ := hcoh p hp
              rw [storeGet_double_update]
              by_cases h2 : p.2 = ta
              · rw [if_pos h2]
                by_cases hft : ta = fa
                · rw [if_pos hft, hfo]
                  refine ⟨_, rfl, ?_⟩
                  have : o = fo := by
                    rw [h2, hft, hfo] at ho
                    injection ho with ho
                    exact ho.symm
                  subst this
                  simpa [setOutlinks, setInlinks] using hid
                · rw [if_neg hft, htd]
                  refine ⟨_, rfl, ?_⟩
                  have : o = td := by
                    rw [h2, htd] at ho
                    injection ho with ho
                    exact ho.symm
                  subst this
                  simpa [setInlinks] using hid
              · rw [if_neg h2]
                by_cases h1 : p.2 = fa
                · rw [if_pos h1, hfo]
                  refine ⟨_, rfl, ?_⟩
                  have : o = fo := by
                    rw [h1, hfo] at ho
                    injection ho with ho
                    exact ho.symm
                  subst this
                  simpa [setOutlinks] using hid
                · rw [if_neg h1]
                  exact ⟨o, ho, hid⟩
            · intro p hp o' ho'
              rw [storeGet_double_update] at ho'
              by_cases h2 : p.2 = ta
              · rw [if_pos h2] at ho'
                by_cases hft : ta = fa
                · rw [if_pos hft, hfo] at ho'
                  injection ho' with ho'
                  subst ho'
                  have hold := hprov p hp fo (by rw [h2, hft]; exact hfo)
                  constructor
                  · intro b hb
                    simp only [setInlinks, setOutlinks] at hb
                    exact hold.1 b (List.mem_of_mem_erase hb)
                  · intro c hc
                    simp only [setInlinks, setOutlinks] at hc
                    exact hold.2 c (List.mem_of_mem_erase hc)
                · rw [if_neg hft, htd] at ho'
                  injection ho' with ho'
                  subst ho'
                  have hold := hprov p hp td (by rw [h2]; exact htd)
                  constructor
                  · intro b hb
                    simp only [setInlinks] at hb
                    exact hold.1 b hb
                  · intro c hc
                    simp only [setInlinks] at hc
                    exact hold.2 c (List.mem_of_mem_erase hc)
              · rw [if_neg h2] at ho'
                by_cases h1 : p.2 = fa
                · rw [if_pos h1, hfo] at ho'
                  injection ho' with ho'
                  subst ho'
                  have hold := hprov p hp fo (by rw [h1]; exact hfo)
                  constructor
                  · intro b hb
                    simp only [setOutlinks] at hb
                    exact hold.1 b (List.mem_of_mem_erase hb)
                  · intro c hc
                    simp only [setOutlinks] at hc
                    exact hold.2 c hc
                · rw [if_neg h1] at ho'
                  exact hprov p hp o' ho'
          · cases hok
        · split at hok
          · cases hok
          · cases hok
            exact ⟨hcoh, hprov⟩
      · cases hok

theorem applyDecisions_inv (idMap : IdMap) (D : List (Int × Int × Int))
    (hinj : AddrInj idMap) :
    ∀ ds s s', (∀ d ∈ ds, d ∈ D) →
      Coherent idMap s → EdgesFromDecisions idMap s D →
      applyDecisions idMap s ds = .ok s' →
      Coherent idMap s' ∧ EdgesFromDecisions idMap s' D := by
  intro ds
  induction ds with
  | nil =>
    intro s s' _ hcoh hprov hok
    cases hok
    exact ⟨hcoh, hprov⟩
  | cons d rest ih =>
    intro s s' hsub hcoh hprov hok
    have hdD : d ∈ D := hsub d (List.mem_cons_self d rest)
    have hsub' : ∀ d2 ∈ rest, d2 ∈ D :=
      fun d2 h2 => hsub d2 (List.mem_cons_of_mem d h2)
    unfold applyDecisions at hok
    split at hok
    · next hone =>
      split at hok
      · cases hok
      · next s2 hadd =>
        have hd1 : (d.1, d.2.1, 1) ∈ D := by
          have : (d.1, d.2.1, (1 : Int)) = d := by
            rw [← hone]
          rw [this]
          exact hdD
        obtain ⟨hc2, hp2⟩ := addEdgeH_inv d.1 d.2.1 idMap s s2 D hinj hcoh hprov hd1 hadd
        exact ih s2 s' hsub' hc2 hp2 hok
    · split at hok
      · cases hok
      · next b hhas =>
        split at hok
        · split at hok
          · cases hok
          · next s2 hrem =>
            obtain ⟨hc2, hp2⟩ := removeEdgeH_inv d.1 d.2.1 idMap s s2 D hcoh hprov hrem
            exact ih s2 s' hsub' hc2 hp2 hok
        · exact ih s s' hsub' hcoh hprov hok



theorem runCopies_length (s : Store) (addrs : List Nat) (rep : Bool) :
    (runCopies s addrs rep).length = addrs.length := by
  unfold runCopies
  by_cases h : rep = true <;> simp [h]

theorem runCopies_cleared (s : Store) (addrs : List Nat) :
    ∀ c ∈ runCopies s addrs true, c.outlinks = [] ∧ c.inlinks = [] := by
  intro c hc
  simp only [runCopies, if_pos rfl] at hc
  obtain ⟨o, _, ho⟩ := List.mem_map.mp hc
  subst ho
  exact ⟨rfl, rfl⟩

theorem runCopies_get? (s : Store) (addrs : List Nat) (i : Nat) (av : Nat)
    (hav : addrs.get? i = some av) :
    (runCopies s addrs true).get? i =
      some (clearLinks ((storeGet s av).getD defaultObj)) := by
  show ((addrs.map (fun a => (storeGet s a).getD defaultObj)).map clearLinks).get? i =
    some (clearLinks ((storeGet s av).getD defaultObj))
  rw [List.get?_map, List.get?_map, hav]
  rfl

theorem storeGet_append_left (s t : Store) (a : Nat) (h : a < s.length) :
    storeGet (s ++ t) a = storeGet s a := by
  show (s ++ t).get? a = s.get? a
  exact List.get?_append h

theorem storeGet_append_right (s t : Store) (i : Nat) :
    storeGet (s ++ t) (s.length + i) = t.get? i := by
  show (s ++ t).get? (s.length + i) = t.get? i
  rw [List.get?_append_right (Nat.le_add_right _ _)]
  congr 1
  omega

/-- C7: when `MunglinkerRunner.run` succeeds with full edge replacement, it
leaves every cell of the input store untouched — the input graph's objects,
their inlinks and outlinks included, are unchanged by the call; the output
graph consists of exactly one fresh cell per input object, all disjoint
from the input cells; each output object is a deep copy of the
corresponding input object in every field except the replayed edge lists;
and every edge of the output graph comes from a decision with output class
1, i.e. `hasEdgeDecision = true`. -/
theorem runLinker_spec (s : Store) (addrs : List Nat)
    (ds : List (Int × Int × Int)) (fin : Store) (outs : List Nat)
    (hval : ∀ a ∈ addrs, a < s.length)
    (hok : runLinker s addrs ds true = .ok (fin, outs)) :
    (∀ a, a < s.length → storeGet fin a = storeGet s a) ∧
    (∀ a ∈ outs, s.length ≤ a) ∧
    outs.length = addrs.length ∧
    (∀ i, i < addrs.length → outs.get? i = some (s.length + i)) ∧
    (∀ i av, addrs.get? i = some av →
      ∀ o', storeGet fin (s.length + i) = some o' →
        ∃ o, storeGet s av = some o ∧ SameShape o o') ∧
    (∀ a ∈ outs, ∀ o, storeGet fin a = some o →
      (∀ b ∈ o.outlinks, (o.objid, b, 1) ∈ ds) ∧
      (∀ c ∈ o.inlinks, (c, o.objid, 1) ∈ ds)) := by
  unfold runLinker at hok
  split at hok
  · cases hok
  · next s2 heq =>
    injection hok with hok
    injection hok with h1 h2
    subst h1
    subst h2
    have hbnd : ∀ p ∈ mkIdMap (runCopies s addrs true) s.length, s.length ≤ p.2 :=
      fun p hp => mkIdMap_addr_ge _ _ p hp
    have hinj := mkIdMap_inj (runCopies s addrs true) s.length
    have hcoh0 := mkIdMap_coherent (runCopies s addrs true) s
    have hprov0 : EdgesFromDecisions (mkIdMap (runCopies s addrs true) s.length)
        (s ++ runCopies s addrs true) ds := by
      intro p hp o ho
      obtain ⟨i, hi, hp2, c, hc, hp1⟩ := mkIdMap_mem _ _ p hp
      have hsg : storeGet (s ++ runCopies s addrs true) p.2 = some c := by
        rw [hp2, storeGet_append_right]
        exact hc
      rw [hsg] at ho
      injection ho with ho
      subst ho
      have hcl := runCopies_cleared s addrs c (List.get?_mem hc)
      rw [hcl.1, hcl.2]
      exact ⟨fun b hb => absurd hb (List.not_mem_nil b),
        fun c2 hc2 => absurd hc2 (List.not_mem_nil c2)⟩
    have hframe := applyDecisions_frame _ s.length hbnd ds _ _ heq
    obtain ⟨hcohF, hprovF⟩ := applyDecisions_inv _ ds hinj ds _ _
      (fun d hd => hd) hcoh0 hprov0 heq
    refine ⟨?_, ?_, ?_, ?_, ?_, ?_⟩
    · intro a ha
      rw [hframe a ha, storeGet_append_left s _ a ha]
    · intro a ha
      obtain ⟨p, hp, hpa⟩ := List.mem_map.mp ha
      rw [← hpa]
      exact hbnd p hp
    · rw [List.length_map, mkIdMap_length, runCopies_length]
    · intro i hi
      have hi' : i < (runCopies s addrs true).length := by
        rw [runCopies_length]
        exact hi
      exact mkIdMap_snd_get? _ s.length i hi'
    · intro i av hav o' ho'
      obtain ⟨o1, h1, hs1⟩ := applyDecisions_shape _ ds _ _ heq _ o' ho'
      rw [storeGet_append_right] at h1
      rw [runCopies_get? s addrs i av hav] at h1
      injection h1 with h1
      have hmem : av ∈ addrs := List.get?_mem hav
      have hlt : av < s.length := hval av hmem
      cases ho : storeGet s av with
      | none =>
        exfalso
        have : s.length ≤ av := by
          have := List.get?_eq_none.mp ho
          exact this
        omega
      | some o0 =>
        refine ⟨o0, rfl, ?_⟩
        rw [ho] at h1
        simp only [Option.getD_some] at h1
        have : SameShape o0 o1 := by
          rw [← h1]
          exact clearLinks_shape o0
        exact sameShape_trans this hs1
    · intro a ha o ho
      obtain ⟨p, hp, hpa⟩ := List.mem_map.mp ha
      rw [← hpa] at ho
      have hpr := hprovF p hp o ho
      obtain ⟨o2, ho2, hid⟩ := hcohF p hp
      rw [ho] at ho2
      injection ho2 with ho2
      subst ho2
      rw [← hid] at hpr
      exact hpr

/-- Concrete instance of C7: running the single positive decision (2, 1)
over the two-object graph with the stale edge 1 → 2 leaves both input
cells — edge included — untouched, and the copied output object for id 2
carries the outlink 1 that stems from that decision. -/
theorem runLinker_spec_witness :
    storeGet w7fin 0 = storeGet w7Store 0 ∧
    storeGet w7fin 1 = storeGet w7Store 1 ∧
    ((2 : Int), (1 : Int), (1 : Int)) ∈ [((2 : Int), (1 : Int), (1 : Int))] := by
  have h := runLinker_spec w7Store [0, 1] [(2, 1, 1)] w7fin [2, 3]
    (by decide) (by rfl)
  refine ⟨h.1 0 (by decide), h.1 1 (by decide), ?_⟩
  exact (h.2.2.2.2.2 3 (by decide) ⟨2, "stem", 0, 0, 9, 9, [], [1]⟩ (by rfl)).1
    1 (by decide)


end MungLinker
